import Mathlib

/-!
Verification of the retrieval-and-routing pipeline of the AI_RAG_AGENT
repository.  The Python sources under `src/app` are shallowly embedded:
text is `List Char`, Python `int` is `Int` (or `Nat` where the source can
never go negative), floating-point similarity scores are `ℚ` (only order
comparisons matter), dictionaries are association lists, and the remote
collaborators (Azure OpenAI, Azure AI Search) are opaque parameters.
-/

set_option maxRecDepth 10000

/-! ## Python string primitives -/

/-- Python whitespace test used by `str.strip()` (ASCII whitespace). -/
def pyIsSpace (c : Char) : Bool :=
  c == ' ' || c == '\t' || c == '\n' || c == '\r' || c == '\x0b' || c == '\x0c'

/-- Leading-whitespace removal, the left half of Python `str.strip()`. -/
def stripLeft (l : List Char) : List Char := l.dropWhile pyIsSpace

/-- Trailing-whitespace removal, the right half of Python `str.strip()`. -/
def stripRight (l : List Char) : List Char := (l.reverse.dropWhile pyIsSpace).reverse

/-- Python `str.strip()` on a character list. -/
def pyStrip (l : List Char) : List Char := stripRight (stripLeft l)

/-- Python `text.rfind(sub, a, b)` for already-normalized natural bounds:
the largest index `i` with `a ≤ i` and `i + sub.length ≤ min b text.length`
at which `sub` occurs in `text`; `none` when there is no occurrence. -/
def pyRfindNat (text sub : List Char) (a b : Nat) : Option Nat :=
  ((List.range (min b text.length + 1)).filter
    (fun i => decide (a ≤ i ∧ i + sub.length ≤ min b text.length ∧
      (text.drop i).take sub.length = sub))).getLast?

/-- Normalization of a Python slice index: negative indices count from the
end, and indices are clamped to `[0, len]`. -/
def pyIdx (len : Nat) (i : Int) : Nat :=
  if i < 0 then ((len : Int) + i).toNat else min i.toNat len

/-- Python slice `text[a:b]` with arbitrary integer bounds. -/
def pySlice (text : List Char) (a b : Int) : List Char :=
  (text.take (pyIdx text.length b)).drop (pyIdx text.length a)

/-- Python `text.rfind(sub, a, b)` with arbitrary integer bounds, returning
`-1` when the substring does not occur (as the Python method does). -/
def pyRfindInt (text sub : List Char) (a b : Int) : Int :=
  match pyRfindNat text sub (pyIdx text.length a) (pyIdx text.length b) with
  | some i => (i : Int)
  | none => -1

/-! ## The chunker (`_chunk_text` in `rag_service.py` / `rag_service_new.py`) -/

/-- The sentence/paragraph boundary markers tried, in priority order, by
both `_chunk_text` implementations. -/
def chunkBoundaries : List (List Char) :=
  [[ '.', ' '], [ '.', '\n'], [ '!', ' '], [ '?', ' '], [ '\n', '\n']]

/-- The boundary-search loop of `_chunk_text` in `rag_service_new.py`
(lines 171-175): for each marker, `text.rfind(marker, start, e)`; the first
marker found strictly past `start + size / 2` moves the window end to just
after it.  All quantities are naturals because in that variant `start`
never goes negative. -/
def adjustEnd (text : List Char) (size start e : Nat) : List (List Char) → Nat
  | [] => e
  | b :: bs =>
    match pyRfindNat text b start e with
    | some lb => if start + size / 2 < lb then lb + b.length else adjustEnd text size start e bs
    | none => adjustEnd text size start e bs

/-- The same boundary-search loop as it appears in `rag_service.py`
(lines 131-135), over Python integers: `rfind` yields `-1` when the marker
is absent and the comparison uses floor division `chunk_size // 2`. -/
def adjustEndOld (text : List Char) (size start e : Int) : List (List Char) → Int
  | [] => e
  | b :: bs =>
    let lb := pyRfindInt text b start e
    if start + Int.fdiv size 2 < lb then lb + (b.length : Int)
    else adjustEndOld text size start e bs

/-- Fueled form of the `while start < text_length` loop of `_chunk_text` in
`rag_service_new.py` (lines 161-191).  One fuel unit is one iteration;
`none` means the fuel ran out with the loop still running.  The guarded
next-start computation (`if next_start <= start: start = end`) keeps
`start` a natural number: whenever Python's `end - overlap` would be
negative it is `≤ start`, and the guard then takes `start = end` exactly as
the truncated subtraction branch does. -/
def chunkNewLoop (text : List Char) (size overlap : Nat) : Nat → Nat → Option (List (List Char))
  | 0, _ => none
  | fuel + 1, start =>
    if start < text.length then
      let e0 := min (start + size) text.length
      let e := if e0 < text.length then adjustEnd text size start e0 chunkBoundaries else e0
      let chunk := pyStrip ((text.take e).drop start)
      let rest? : Option (List (List Char)) :=
        if text.length ≤ e then some []
        else chunkNewLoop text size overlap fuel (if e - overlap ≤ start then e else e - overlap)
      rest?.map (fun rest => if chunk = [] then rest else chunk :: rest)
    else some []

/-- `_chunk_text` of `rag_service_new.py`: run the loop with enough fuel
(shown sufficient for `size ≥ 1` below) from `start = 0`. -/
def chunk_text_new (text : List Char) (size overlap : Nat) : List (List Char) :=
  (chunkNewLoop text size overlap (text.length + 1) 0).getD []

/-- Fueled form of the `while start < text_length` loop of `_chunk_text` in
`rag_service.py` (lines 124-144).  This variant recomputes
`start = end - overlap` with no progress guard, so `start` lives in `Int`
(Python ints) and slicing uses full Python slice semantics. -/
def chunkOldLoop (text : List Char) (size overlap : Int) : Nat → Int → Option (List (List Char))
  | 0, _ => none
  | fuel + 1, start =>
    if start < (text.length : Int) then
      let e0 : Int := min (start + size) (text.length : Int)
      let e := if e0 < (text.length : Int) then adjustEndOld text size start e0 chunkBoundaries else e0
      let chunk := pyStrip (pySlice text start e)
      let rest? : Option (List (List Char)) :=
        if (text.length : Int) ≤ e then some []
        else chunkOldLoop text size overlap fuel (e - overlap)
      rest?.map (fun rest => if chunk = [] then rest else chunk :: rest)
    else some []

/-! ## Search and context assembly (`rag_service*.py`) -/

/-- A chunk record, as built by `DocumentChunk` in `rag_service_new.py`. -/
structure DocumentChunk where
  content : String
  document_name : String
  chunk_index : Nat
  id : String
deriving DecidableEq, Repr

/-- One result dictionary returned by the Azure AI Search collaborator:
the selected fields plus the optional ranking score that
`result.get("@search.score", 0.0)` reads.  Scores are rationals: the code
only ever compares them. -/
structure AzureDoc where
  content : String
  document_name : String
  chunk_index : Nat
  id : String
  score : Option ℚ
deriving DecidableEq, Repr

/-- The score `rag_service_new.search` reads off a backend result:
`result.get("@search.score", 0.0)`. -/
def azureScore (r : AzureDoc) : ℚ := r.score.getD 0

/-- `search` of `rag_service.py` (lines 193-216): embeds the query, asks
the Azure client for `top_k` results and returns `list(results)` as-is —
no similarity-threshold filtering of any kind.  The backend response is
the parameter. -/
def search_old (backendResults : List AzureDoc) : List AzureDoc :=
  backendResults

/-- `search` of `rag_service_new.py` (lines 256-306): walk the backend
results in order and keep `(chunk, score)` for exactly those whose score is
at least the configured threshold. -/
def search_new (threshold : ℚ) (backendResults : List AzureDoc) : List (DocumentChunk × ℚ) :=
  backendResults.filterMap (fun r =>
    if threshold ≤ azureScore r then
      some (⟨r.content, r.document_name, r.chunk_index, r.id⟩, azureScore r)
    else none)

/-- The configured `SIMILARITY_THRESHOLD` default (`config.py`): `0.7`. -/
def similarityThresholdDefault : ℚ := 7 / 10

/-- Python `sep.join(parts)`. -/
def pyJoin (sep : String) : List String → String
  | [] => ""
  | [x] => x
  | x :: y :: xs => x ++ sep ++ pyJoin sep (y :: xs)

/-- An enumeration function standing for CPython `list(s)` on a `set` of
strings built by inserting the given sequence of elements: it must list
each distinct inserted value exactly once, but the order it chooses is
not observable from the source. -/
def SetEnumeration (ord : List String → List String) : Prop :=
  ∀ l : List String, (ord l).Nodup ∧ ∀ x, x ∈ ord l ↔ x ∈ l

/-- Deduplication keeping the first occurrence of each element not yet in
`seen`, in order of first appearance. -/
def dedupFirstAux (seen : List String) : List String → List String
  | [] => []
  | x :: xs => if x ∈ seen then dedupFirstAux seen xs else x :: dedupFirstAux (x :: seen) xs

/-- Deduplication keeping the first occurrence of each element, in order
of first appearance — the ordering the specification ascribes to the
source list. -/
def dedupFirst (l : List String) : List String := dedupFirstAux [] l

/-- A set-enumeration order that lists the distinct elements in reverse
order of first appearance (a perfectly possible hash-table order). -/
def revFirstOrder (l : List String) : List String := (dedupFirst l).reverse

/-- `get_context_for_query` of `rag_service_new.py` (lines 308-332): on an
empty search result return `("", [])`; otherwise join one
labeled block per hit with the visible separator, and return
`list(sources)` where `sources` is the `set` of document names inserted in
hit order (`ord` is the set-enumeration order; `rag_service.py`
lines 218-233 is the same computation over result dictionaries). -/
def get_context_for_query (ord : List String → List String)
    (results : List (DocumentChunk × ℚ)) : String × List String :=
  if results.isEmpty then ("", [])
  else
    let context_parts := results.map
      (fun h => "[From " ++ h.1.document_name ++ "]:\n" ++ h.1.content)
    let sources := ord (results.map (fun h => h.1.document_name))
    (pyJoin "\n\n---\n\n" context_parts, sources)

/-! ## The session store (`session_service.py`) -/

/-- A stored conversation message (`SessionMessage`); timestamps are
abstract instants, totally ordered. -/
structure SessionMessage where
  role : String
  content : String
  timestamp : Int
deriving DecidableEq, Repr

/-- A stored session (`SessionData`). -/
structure SessionData where
  session_id : String
  messages : List SessionMessage
  created_at : Int
  last_accessed : Int
deriving DecidableEq, Repr

/-- The `_sessions` dictionary: an association list whose keys are unique
(a Python `dict` invariant, assumed where needed). -/
abbrev Store := List (String × SessionData)

/-- Python `d[k]` / `k in d` lookup: the value at the first matching key. -/
def dictGet : Store → String → Option SessionData
  | [], _ => none
  | (k, v) :: rest, key => if k = key then some v else dictGet rest key

/-- Python `d[k] = f(d[k])`-style in-place update of the entry at `key`. -/
def dictUpd (st : Store) (key : String) (f : SessionData → SessionData) : Store :=
  st.map (fun p => if p.1 = key then (p.1, f p.2) else p)

/-- Python `del d[k]`. -/
def dictDel (st : Store) (key : String) : Store :=
  st.filter (fun p => p.1 ≠ key)

/-- Python `l[-k:]` for a non-negative `k`: the last `k` elements — except
that `l[-0:]` is `l[0:]`, the whole list. -/
def pyLastSlice (k : Nat) (l : List SessionMessage) : List SessionMessage :=
  if k = 0 then l else l.drop (l.length - k)

/-- The last `min k (length of l)` elements of a list (specification-side
description of trimming; for `k ≥ 1` it agrees with `pyLastSlice`). -/
def lastCap {α : Type} (k : Nat) (l : List α) : List α :=
  l.drop (l.length - k)

/-- `add_message` (lines 61-87): warn-and-return when the id is unknown;
otherwise append a timestamped message, trim to the most recent
`max_history * 2` entries when that bound is exceeded, and refresh
`last_accessed`. -/
def add_message (st : Store) (session_id role content : String) (now : Int)
    (max_history : Nat) : Store :=
  match dictGet st session_id with
  | none => st
  | some session =>
    let msgs := session.messages ++ [⟨role, content, now⟩]
    let msgs := if max_history * 2 < msgs.length then pyLastSlice (max_history * 2) msgs else msgs
    dictUpd st session_id (fun s => { s with messages := msgs, last_accessed := now })

/-- `get_conversation_history` (lines 89-107): `[]` for an unknown id;
otherwise the last `max_history * 2` messages as role/content pairs. -/
def get_conversation_history (st : Store) (session_id : String) (max_history : Nat) :
    List (String × String) :=
  match dictGet st session_id with
  | none => []
  | some session => (pyLastSlice (max_history * 2) session.messages).map
      (fun m => (m.role, m.content))

/-- `clear_session` (lines 109-124): delete and report `true` when the id
is stored, otherwise report `false`. -/
def clear_session (st : Store) (session_id : String) : Bool × Store :=
  match dictGet st session_id with
  | some _ => (true, dictDel st session_id)
  | none => (false, st)

/-- `_cleanup_expired_sessions` (lines 126-135): drop every session whose
`last_accessed` is strictly before `now - timeout_minutes`. -/
def cleanup_expired_sessions (st : Store) (now timeout_minutes : Int) : Store :=
  st.filter (fun p => ¬ (p.2.last_accessed < now - timeout_minutes))

/-- `get_or_create_session` (lines 31-59): sweep expired sessions, then
return the supplied id (refreshing `last_accessed`) when it is truthy and
known, else store a fresh session under `fresh_id` (the `uuid4()` value)
and return that.  Python's `if session_id and session_id in ...` makes a
supplied empty string fall through to creation. -/
def get_or_create_session (st : Store) (now timeout_minutes : Int)
    (session_id : Option String) (fresh_id : String) : String × Store :=
  let st1 := cleanup_expired_sessions st now timeout_minutes
  match session_id with
  | some s =>
    if s ≠ "" ∧ (dictGet st1 s).isSome then
      (s, dictUpd st1 s (fun sess => { sess with last_accessed := now }))
    else (fresh_id, st1 ++ [(fresh_id, ⟨fresh_id, [], now, now⟩)])
  | none => (fresh_id, st1 ++ [(fresh_id, ⟨fresh_id, [], now, now⟩)])

/-- Appending a whole sequence of role/content pairs through
`add_message`, one call per message (all at one abstract instant). -/
def appendAll (st : Store) (session_id : String) (now : Int) (max_history : Nat)
    (msgs : List (String × String)) : Store :=
  msgs.foldl (fun s rc => add_message s session_id rc.1 rc.2 now max_history) st

/-! ## The agent (`agent_service.py`) -/

/-- `QueryType` from `schemas.py`. -/
inductive QueryType where
  | direct
  | rag
deriving DecidableEq, Repr

/-- One tool invocation in the classification collaborator's reply: the
function name and the parsed `query` argument of
`json.loads(tool_call.function.arguments)` (absent when the key is
missing). -/
structure ToolCall where
  name : String
  argQuery : Option String
deriving DecidableEq, Repr

/-- The classification collaborator's reply message: its (possibly empty)
list of tool calls.  `message.tool_calls` being `None` and being `[]` are
both falsy in Python, so both are the empty list here. -/
structure ClassifyMessage where
  tool_calls : List ToolCall
deriving DecidableEq, Repr

/-- `_classify_and_process_query` (lines 95-146): ask the classification
collaborator (its outcome — a reply or a raised error — is the `resp`
parameter); on the first `search_documents` tool call return
`(RAG, args.get("query", query))`; with no tool call return
`(DIRECT, None)`; and on any raised error fall open to `(RAG, query)`. -/
def classify_and_process_query (resp : Except Unit ClassifyMessage) (query : String) :
    QueryType × Option String :=
  match resp with
  | .error _ => (QueryType.rag, some query)
  | .ok message =>
    match message.tool_calls.find? (fun tc => tc.name = "search_documents") with
    | some tc => (QueryType.rag, some (tc.argQuery.getD query))
    | none => (QueryType.direct, none)

/-- Python `a or b` on an optional string: `None` and `""` are falsy. -/
def pyOrStr (a : Option String) (b : String) : String :=
  match a with
  | none => b
  | some s => if s = "" then b else s

/-- The fixed no-relevant-information answer of `_generate_rag_response`
(lines 192-197). -/
def noInfoMsg : String :=
  "I couldn\x27t find relevant information in the documents to answer your question. Could you please rephrase or ask about a different topic?"

/-- `_generate_rag_response` (lines 171-208): retrieve
`(context, sources)` for the search query; when the context is empty
return the fixed answer with no sources, never reaching the generation
collaborator; otherwise return the collaborator's grounded answer with the
retrieved sources.  `retrieve` is `rag_service.get_context_for_query` and
`genRag context query history` the chat-completion collaborator. -/
def generate_rag_response (retrieve : String → String × List String)
    (genRag : String → String → List (String × String) → String)
    (query search_query : String) (history : List (String × String)) :
    String × List String :=
  let ctx := retrieve search_query
  if ctx.1 = "" then (noInfoMsg, [])
  else (genRag ctx.1 query history, ctx.2)

/-- The structured result of `process_query` (`AskResponse` plus the
session store that the call mutated). -/
structure AskOut where
  answer : String
  sources : List String
  query_type : QueryType
  session_id : String
  store : Store
deriving DecidableEq, Repr

/-- `process_query` (lines 210-258): resolve the session, read its
history, classify, answer either directly or through the RAG pipeline
(`search_query or query` — Python `or`), then append the user query and
the assistant answer to the session, in that order. -/
def process_query (query : String) (session_id : Option String) (st : Store)
    (now timeout_minutes : Int) (max_history : Nat) (fresh_id : String)
    (resp : Except Unit ClassifyMessage)
    (genDirect : String → List (String × String) → String)
    (retrieve : String → String × List String)
    (genRag : String → String → List (String × String) → String) : AskOut :=
  let sidSt := get_or_create_session st now timeout_minutes session_id fresh_id
  let sid := sidSt.1
  let st1 := sidSt.2
  let history := get_conversation_history st1 sid max_history
  let cls := classify_and_process_query resp query
  let answerSources : String × List String :=
    match cls.1 with
    | QueryType.direct => (genDirect query history, [])
    | QueryType.rag => generate_rag_response retrieve genRag query (pyOrStr cls.2 query) history
  let st2 := add_message st1 sid "user" query now max_history
  let st3 := add_message st2 sid "assistant" answerSources.1 now max_history
  ⟨answerSources.1, answerSources.2, cls.1, sid, st3⟩

/-! ## The reindex route (`routes.py`) -/

/-- The instance attributes `RAGService.__init__` in `rag_service.py`
(lines 49-74) assigns on `self` — on either configuration branch the same
attribute names exist. -/
def ragServiceInstanceAttrs : List String :=
  ["openai_service", "endpoint", "key", "index_name", "_documents_path",
   "search_client", "index_client"]

/-- The methods the `RAGService` class in `rag_service.py` defines. -/
def ragServiceMethods : List String :=
  ["__init__", "_ensure_index_exists", "_chunk_text", "index_documents",
   "search", "get_context_for_query"]

/-- Python attribute resolution on a `RAGService` instance: an attribute
access succeeds exactly when the name is an instance attribute or a class
method; anything else raises `AttributeError`. -/
def ragHasAttr (a : String) : Bool :=
  ragServiceInstanceAttrs.contains a || ragServiceMethods.contains a

/-- `reindex_documents` in `routes.py` (lines 68-95): inside the `try`
block the handler evaluates `rag_service.index.reset()` — the first step
is the attribute access `rag_service.index`, which raises
`AttributeError` when no such attribute exists, landing in the `except`
branch that answers HTTP 500.  Only if that access (and then the `chunks`
assignment, which as a plain attribute assignment always succeeds) got
through would `index_documents` run and its count be reported. -/
def reindex_documents_route (indexDocs : Unit → Nat) : Except Nat String :=
  if ragHasAttr "index" then
    Except.ok ("Successfully indexed " ++ toString (indexDocs ()) ++ " document chunks")
  else
    Except.error 500

/-! ## Generic list helpers -/

theorem getLast?_mem_of_eq {α : Type} {l : List α} {a : α} (h : l.getLast? = some a) : a ∈ l := by
  induction l with
  | nil => simp at h
  | cons x xs ih =>
    cases xs with
    | nil => simp_all
    | cons y t =>
      rw [List.getLast?_cons_cons] at h
      exact List.mem_cons_of_mem _ (ih h)

theorem dropWhile_all_nil {α : Type} (p : α → Bool) (l : List α)
    (h : ∀ c ∈ l, p c = true) : l.dropWhile p = [] := by
  induction l with
  | nil => rfl
  | cons x xs ih =>
    rw [List.dropWhile_cons, h x (by simp)]
    exact ih (fun c hc => h c (by simp [hc]))

theorem exists_not_mem_dropWhile {α : Type} (p : α → Bool) (l : List α)
    (h : ∃ c ∈ l, p c = false) : ∃ c ∈ l.dropWhile p, p c = false := by
  induction l with
  | nil => simp at h
  | cons x xs ih =>
    rcases h with ⟨c, hc, hpc⟩
    by_cases hx : p x = true
    · rw [List.dropWhile_cons, if_pos hx]
      rcases List.mem_cons.1 hc with rfl | hmem
      · exact absurd hx (by simp [hpc])
      · exact ih ⟨c, hmem, hpc⟩
    · rw [List.dropWhile_cons, if_neg hx]
      exact ⟨c, hc, hpc⟩

theorem dropWhile_head_false {α : Type} (p : α → Bool) (l : List α) {a : α} {t : List α}
    (h : l.dropWhile p = a :: t) : p a = false := by
  induction l with
  | nil => simp at h
  | cons x xs ih =>
    rw [List.dropWhile_cons] at h
    by_cases hx : p x = true
    · rw [if_pos hx] at h; exact ih h
    · rw [if_neg hx] at h
      have hxa : x = a := (List.cons.injEq _ _ _ _ ▸ h).1
      rw [← hxa]
      exact Bool.eq_false_iff.mpr hx

theorem dropWhile_idem {α : Type} (p : α → Bool) (l : List α) :
    (l.dropWhile p).dropWhile p = l.dropWhile p := by
  cases hd : l.dropWhile p with
  | nil => rfl
  | cons a t =>
    rw [List.dropWhile_cons, dropWhile_head_false p l hd]
    simp

/-! ## Helpers about `pyStrip` -/

theorem pyStrip_of_all_space (l : List Char) (h : ∀ c ∈ l, pyIsSpace c = true) :
    pyStrip l = [] := by
  unfold pyStrip stripLeft stripRight
  rw [dropWhile_all_nil _ _ h]
  rfl

theorem pyStrip_ne_nil_of_exists (l : List Char) (h : ∃ c ∈ l, pyIsSpace c = false) :
    pyStrip l ≠ [] := by
  unfold pyStrip stripLeft stripRight
  intro hcontra
  rcases exists_not_mem_dropWhile _ _ h with ⟨c, hc, hpc⟩
  have hrev : ∃ d ∈ (l.dropWhile pyIsSpace).reverse, pyIsSpace d = false :=
    ⟨c, List.mem_reverse.2 hc, hpc⟩
  rcases exists_not_mem_dropWhile _ _ hrev with ⟨d, hd, hpd⟩
  have hnil : List.dropWhile pyIsSpace (l.dropWhile pyIsSpace).reverse = [] :=
    List.reverse_eq_nil_iff.1 hcontra
  rw [hnil] at hd
  simp at hd

theorem stripLeft_of_stripLeft_eq {l : List Char} (h : stripLeft l = l) :
    ∀ m, (∃ t, m ++ t = l) → stripLeft m = m := by
  intro m hm
  rcases hm with ⟨t, rfl⟩
  cases m with
  | nil => rfl
  | cons a s =>
    unfold stripLeft at h ⊢
    rw [List.cons_append] at h
    rw [List.dropWhile_cons] at h ⊢
    by_cases ha : pyIsSpace a = true
    · exfalso
      rw [if_pos ha] at h
      have hlen := congrArg List.length h
      have hle := (List.dropWhile_sublist (l := s ++ t) pyIsSpace).length_le
      simp at hlen hle
      omega
    · rw [if_neg ha]

theorem pyStrip_idem (l : List Char) : pyStrip (pyStrip l) = pyStrip l := by
  have hleft : stripLeft (pyStrip l) = pyStrip l := by
    have h1 : stripLeft (stripLeft l) = stripLeft l := dropWhile_idem _ _
    have hpre : ∃ t, pyStrip l ++ t = stripLeft l := by
      refine ⟨(List.takeWhile pyIsSpace (stripLeft l).reverse).reverse, ?_⟩
      unfold pyStrip stripRight
      rw [← List.reverse_append, List.takeWhile_append_dropWhile, List.reverse_reverse]
    exact stripLeft_of_stripLeft_eq h1 _ hpre
  have hright : stripRight (pyStrip l) = pyStrip l := by
    unfold pyStrip stripRight
    rw [List.reverse_reverse, dropWhile_idem]
  calc pyStrip (pyStrip l) = stripRight (pyStrip l) := by rw [pyStrip, hleft]
    _ = pyStrip l := hright

/-! ## C10 and C5 -/

/-- C10: every invocation of the `/reindex` handler fails with HTTP 500 and
never runs `index_documents`: the handler dereferences `rag_service.index`
(and would then assign `rag_service.chunks`), but `RAGService` in
`rag_service.py` defines neither attribute, so the `AttributeError` branch
answers 500 on every call, whatever the indexing routine would have
returned. -/
theorem c10_reindex_always_fails :
    (∀ f : Unit → Nat, reindex_documents_route f = Except.error 500)
    ∧ ragHasAttr "index" = false ∧ ragHasAttr "chunks" = false :=
  ⟨fun _ => rfl, rfl, rfl⟩

/-- C10 witness: the concrete handler run (with an indexing routine that
would report 3 chunks) answers HTTP 500. -/
theorem c10_witness : reindex_documents_route (fun _ => 3) = Except.error 500 :=
  (c10_reindex_always_fails.1 (fun _ => 3))

/-- C5: the router fails open — whenever the classification call raises,
`_classify_and_process_query` returns `(RAG, query)` with the original
query; and when classification succeeds with a `search_documents` tool
call whose `query` argument is absent, the search query defaults to the
raw original query. -/
theorem c5_router_fail_open (query : String) :
    (∀ e : Unit, classify_and_process_query (Except.error e) query = (QueryType.rag, some query))
    ∧ (∀ (msg : ClassifyMessage) (tc : ToolCall),
        msg.tool_calls.find? (fun t => t.name = "search_documents") = some tc →
        tc.argQuery = none →
        classify_and_process_query (Except.ok msg) query = (QueryType.rag, some query)) := by
  refine ⟨fun _ => rfl, fun msg tc hfind harg => ?_⟩
  simp [classify_and_process_query, hfind, harg]

/-- C5 witness: a raising classification call and a `search_documents`
tool call without a `query` argument both yield `RETRIEVE` with the
original query. -/
theorem c5_witness :
    classify_and_process_query (Except.error ()) "what is the leave policy"
        = (QueryType.rag, some "what is the leave policy")
    ∧ classify_and_process_query (Except.ok ⟨[⟨"search_documents", none⟩]⟩)
        "what is the leave policy" = (QueryType.rag, some "what is the leave policy") :=
  ⟨(c5_router_fail_open "what is the leave policy").1 (),
   (c5_router_fail_open "what is the leave policy").2 ⟨[⟨"search_documents", none⟩]⟩
     ⟨"search_documents", none⟩ (by rfl) rfl⟩

/-! ## Helpers about the session dictionary -/

theorem dictGet_none_iff (st : Store) (k : String) :
    dictGet st k = none ↔ k ∉ st.map Prod.fst := by
  induction st with
  | nil => simp [dictGet]
  | cons p rest ih =>
    obtain ⟨k1, v1⟩ := p
    by_cases h : k1 = k
    · simp [dictGet, h]
    · simp [dictGet, h, ih, Ne.symm h]

theorem dictGet_append (a b : Store) (k : String) :
    dictGet (a ++ b) k = match dictGet a k with
      | some v => some v
      | none => dictGet b k := by
  induction a with
  | nil => simp [dictGet]
  | cons p rest ih =>
    obtain ⟨k1, v1⟩ := p
    by_cases h : k1 = k
    · simp [dictGet, h]
    · simp [dictGet, h, ih]

theorem dictGet_dictDel_self (st : Store) (k : String) :
    dictGet (dictDel st k) k = none := by
  induction st with
  | nil => rfl
  | cons p rest ih =>
    obtain ⟨k1, v1⟩ := p
    by_cases h : k1 = k
    · simpa [dictDel, List.filter_cons, h] using ih
    · simpa [dictDel, List.filter_cons, h, dictGet] using ih

theorem dictGet_dictUpd_self (st : Store) (k : String) (f : SessionData → SessionData) :
    dictGet (dictUpd st k f) k = (dictGet st k).map f := by
  induction st with
  | nil => rfl
  | cons p rest ih =>
    obtain ⟨k1, v1⟩ := p
    by_cases h : k1 = k
    · subst h
      have hstep : dictUpd ((k1, v1) :: rest) k1 f = (k1, f v1) :: dictUpd rest k1 f := by
        simp [dictUpd]
      rw [hstep, dictGet, if_pos rfl]
      simp [dictGet]
    · simp only [dictUpd, List.map_cons] at ih ⊢
      rw [if_neg (by simpa using h)]
      simp only [dictGet, if_neg h]
      exact ih

theorem dictGet_filter_of_kept (st : Store) (k : String) (v : SessionData)
    (p : String × SessionData → Bool)
    (hget : dictGet st k = some v) (hkeep : p (k, v) = true) :
    dictGet (st.filter p) k = some v := by
  induction st with
  | nil => simp [dictGet] at hget
  | cons q rest ih =>
    obtain ⟨k1, v1⟩ := q
    by_cases h : k1 = k
    · rw [dictGet, if_pos h] at hget
      obtain rfl := h
      obtain rfl : v1 = v := by simpa using hget
      rw [List.filter_cons, if_pos (by simpa using hkeep)]
      simp [dictGet]
    · rw [dictGet, if_neg h] at hget
      rw [List.filter_cons]
      by_cases hp : p (k1, v1) = true
      · rw [if_pos (by simpa using hp), dictGet, if_neg h]
        exact ih hget
      · rw [if_neg (by simpa using hp)]
        exact ih hget

theorem dictGet_filter_none (st : Store) (k : String)
    (p : String × SessionData → Bool) (hget : dictGet st k = none) :
    dictGet (st.filter p) k = none := by
  rw [dictGet_none_iff] at hget ⊢
  intro hmem
  apply hget
  rcases List.mem_map.1 hmem with ⟨q, hq, hfst⟩
  exact List.mem_map.2 ⟨q, List.Sublist.mem hq (List.filter_sublist st), hfst⟩

theorem dictGet_filter_dropped (st : Store) (k : String) (v : SessionData)
    (p : String × SessionData → Bool)
    (hnd : (st.map Prod.fst).Nodup)
    (hget : dictGet st k = some v) (hdrop : p (k, v) = false) :
    dictGet (st.filter p) k = none := by
  induction st with
  | nil => simp [dictGet] at hget
  | cons q rest ih =>
    obtain ⟨k1, v1⟩ := q
    rw [List.map_cons] at hnd
    have hnotin := (List.nodup_cons.1 hnd).1
    have hnd' := (List.nodup_cons.1 hnd).2
    by_cases h : k1 = k
    · rw [dictGet, if_pos h] at hget
      obtain rfl := h
      obtain rfl : v1 = v := by simpa using hget
      rw [List.filter_cons, if_neg (by simpa using hdrop)]
      exact dictGet_filter_none rest k1 p ((dictGet_none_iff rest k1).2 (by simpa using hnotin))
    · rw [dictGet, if_neg h] at hget
      rw [List.filter_cons]
      by_cases hp : p (k1, v1) = true
      · rw [if_pos (by simpa using hp), dictGet, if_neg h]
        exact ih hnd' hget
      · rw [if_neg (by simpa using hp)]
        exact ih hnd' hget

/-! ## C8 -/

/-- C8: operations on an unknown session id degrade silently —
`add_message` leaves the store unchanged, `get_conversation_history`
returns the empty sequence, `clear_session` reports `false`; while
`clear_session` on a stored id deletes it and reports `true`. -/
theorem c8_unknown_session (st : Store) (sid role content : String) (now : Int) (m : Nat) :
    (dictGet st sid = none →
      add_message st sid role content now m = st
      ∧ get_conversation_history st sid m = []
      ∧ clear_session st sid = (false, st))
    ∧ (∀ sess, dictGet st sid = some sess →
        (clear_session st sid).1 = true
        ∧ dictGet (clear_session st sid).2 sid = none) := by
  constructor
  · intro hnone
    refine ⟨?_, ?_, ?_⟩
    · rw [add_message, hnone]
    · rw [get_conversation_history, hnone]
    · rw [clear_session, hnone]
  · intro sess hsome
    rw [clear_session, hsome]
    exact ⟨rfl, dictGet_dictDel_self st sid⟩

/-- C8 witness: on a one-session store, the three operations behave as
stated for the unknown id `"missing"` and `clear_session` deletes the
stored id `"s1"`. -/
theorem c8_witness :
    (add_message [("s1", ⟨"s1", [], 0, 0⟩)] "missing" "user" "hi" 1 10
        = [("s1", ⟨"s1", [], 0, 0⟩)]
      ∧ get_conversation_history [("s1", ⟨"s1", [], 0, 0⟩)] "missing" 10 = []
      ∧ clear_session [("s1", ⟨"s1", [], 0, 0⟩)] "missing"
        = (false, [("s1", ⟨"s1", [], 0, 0⟩)]))
    ∧ ((clear_session [("s1", ⟨"s1", [], 0, 0⟩)] "s1").1 = true
      ∧ dictGet (clear_session [("s1", ⟨"s1", [], 0, 0⟩)] "s1").2 "s1" = none) :=
  ⟨(c8_unknown_session [("s1", ⟨"s1", [], 0, 0⟩)] "missing" "user" "hi" 1 10).1 (by decide),
   (c8_unknown_session [("s1", ⟨"s1", [], 0, 0⟩)] "s1" "user" "hi" 1 10).2
     ⟨"s1", [], 0, 0⟩ (by decide)⟩

/-! ## C4: session trimming -/

theorem pyLastSlice_eq_lastCap (k : Nat) (hk : k ≠ 0) (l : List SessionMessage) :
    pyLastSlice k l = lastCap k l := by
  rw [pyLastSlice, if_neg hk, lastCap]

theorem lastCap_length {α : Type} (k : Nat) (l : List α) :
    (lastCap k l).length = min k l.length := by
  simp only [lastCap, List.length_drop]
  omega

theorem lastCap_of_le {α : Type} (k : Nat) (l : List α) (h : l.length ≤ k) :
    lastCap k l = l := by
  simp only [lastCap, Nat.sub_eq_zero_of_le h, List.drop_zero]

theorem lastCap_append {α : Type} (k : Nat) (a b : List α) :
    lastCap k (lastCap k a ++ b) = lastCap k (a ++ b) := by
  by_cases h : a.length ≤ k
  · rw [lastCap_of_le k a h]
  · simp only [lastCap]
    rw [List.drop_append_eq_append_drop, List.drop_append_eq_append_drop, List.drop_drop]
    congr 1
    · congr 1
      simp only [List.length_append, List.length_drop]
      omega
    · congr 1
      simp only [List.length_append, List.length_drop]
      omega

/-- The source's conditional trim equals capping at the most recent
`max_history * 2` messages, as soon as `max_history ≥ 1`. -/
theorem trim_eq_lastCap (m : Nat) (hm : 1 ≤ m) (l : List SessionMessage) :
    (if m * 2 < l.length then pyLastSlice (m * 2) l else l) = lastCap (m * 2) l := by
  by_cases hlt : m * 2 < l.length
  · rw [if_pos hlt, pyLastSlice_eq_lastCap _ (by omega)]
  · rw [if_neg hlt, lastCap_of_le _ _ (by omega)]

/-- What one `add_message` call on a stored session does. -/
theorem add_message_found (st : Store) (sid role content : String) (now : Int)
    (m : Nat) (hm : 1 ≤ m) (sess : SessionData) (hget : dictGet st sid = some sess) :
    dictGet (add_message st sid role content now m) sid
      = some { sess with
          messages := lastCap (m * 2) (sess.messages ++ [⟨role, content, now⟩]),
          last_accessed := now } := by
  simp only [add_message, hget]
  rw [dictGet_dictUpd_self st sid, hget]
  simp only [Option.map_some']
  rw [trim_eq_lastCap m hm]

theorem appendAll_messages (sid : String) (now : Int) (m : Nat) (hm : 1 ≤ m) :
    ∀ (msgs : List (String × String)) (st : Store) (sess : SessionData),
      dictGet st sid = some sess → sess.messages.length ≤ m * 2 →
      (dictGet (appendAll st sid now m msgs) sid).map SessionData.messages
        = some (lastCap (m * 2)
            (sess.messages ++ msgs.map (fun rc => (⟨rc.1, rc.2, now⟩ : SessionMessage)))) := by
  intro msgs
  induction msgs with
  | nil =>
    intro st sess hget hlen
    simp only [appendAll, List.foldl_nil, List.map_nil, List.append_nil]
    rw [hget, lastCap_of_le _ _ hlen]
    rfl
  | cons x rest ih =>
    intro st sess hget hlen
    have hstep := add_message_found st sid x.1 x.2 now m hm sess hget
    have hlen' :
        (lastCap (m * 2) (sess.messages ++ [(⟨x.1, x.2, now⟩ : SessionMessage)])).length
          ≤ m * 2 := by
      rw [lastCap_length]; omega
    have happ : appendAll st sid now m (x :: rest)
        = appendAll (add_message st sid x.1 x.2 now m) sid now m rest := by
      simp [appendAll, List.foldl_cons]
    rw [happ, ih _ _ hstep hlen']
    simp only [List.map_cons]
    rw [lastCap_append]
    simp

/-- C4 counterexample: with `maxHistory = 0` the Python trim slice
`messages[-0:]` is the whole list, so one `add_message` on a fresh session
already leaves more than `2 * maxHistory = 0` stored messages — the
claimed bound fails for that configuration. -/
theorem c4_counterexample :
    ¬ (∀ (m : Nat) (st : Store) (sid role content : String) (now : Int) (sess : SessionData),
        dictGet (add_message st sid role content now m) sid = some sess →
        sess.messages.length ≤ m * 2) := by
  intro h
  have h1 := h 0 [("s", ⟨"s", [], 0, 0⟩)] "s" "user" "hi" 1
    ⟨"s", [⟨"user", "hi", 1⟩], 0, 1⟩ (by decide)
  simp at h1

/-- C4 (amended): for every `maxHistory ≥ 1`, the target session's stored
message sequence never exceeds `2 * maxHistory` entries after any
`add_message` call, and after appending any `N > 2 * maxHistory` messages
to a fresh session, `get_conversation_history` returns exactly the most
recent `2 * maxHistory` of them in their original append order. -/
theorem c4_session_trim (m : Nat) (hm : 1 ≤ m) :
    (∀ (st : Store) (sid role content : String) (now : Int) (sess' : SessionData),
        dictGet (add_message st sid role content now m) sid = some sess' →
        sess'.messages.length ≤ m * 2)
    ∧ (∀ (sid : String) (t0 now : Int) (msgs : List (String × String)),
        m * 2 < msgs.length →
        get_conversation_history
            (appendAll [(sid, ⟨sid, [], t0, t0⟩)] sid now m msgs) sid m
          = msgs.drop (msgs.length - m * 2)) := by
  constructor
  · intro st sid role content now sess' hget'
    cases hget : dictGet st sid with
    | none =>
      simp [add_message, hget] at hget'
    | some sess =>
      rw [add_message_found st sid role content now m hm sess hget] at hget'
      injection hget' with h'
      subst h'
      rw [lastCap_length]
      omega
  · intro sid t0 now msgs hlen
    have hinit : dictGet [(sid, ⟨sid, [], t0, t0⟩)] sid = some ⟨sid, [], t0, t0⟩ := by
      simp [dictGet]
    have hall := appendAll_messages sid now m hm msgs [(sid, ⟨sid, [], t0, t0⟩)]
      ⟨sid, [], t0, t0⟩ hinit (by simp)
    rcases Option.map_eq_some'.1 hall with ⟨sess'', hget'', hmsgs⟩
    simp only [List.nil_append] at hmsgs
    simp only [get_conversation_history, hget'']
    rw [pyLastSlice_eq_lastCap _ (by omega), hmsgs]
    rw [lastCap_of_le _ _ (by rw [lastCap_length]; omega)]
    simp only [lastCap, List.length_map, ← List.map_drop, List.map_map]
    have hcomp :
        ((fun (mm : SessionMessage) => (mm.role, mm.content))
          ∘ fun rc : String × String =>
            ({ role := rc.1, content := rc.2, timestamp := now } : SessionMessage)) = id := by
      funext rc
      rfl
    rw [hcomp, List.map_id]

/-- C4 witness: with `maxHistory = 1` and three appended messages the
history is exactly the last two messages in order. -/
theorem c4_witness :
    get_conversation_history
        (appendAll [("s", ⟨"s", [], 0, 0⟩)] "s" 1 1
          [("user", "a"), ("assistant", "b"), ("user", "c")]) "s" 1
      = [("assistant", "b"), ("user", "c")] := by
  have h := (c4_session_trim 1 (by decide)).2 "s" 0 1
    [("user", "a"), ("assistant", "b"), ("user", "c")] (by decide)
  simpa using h

/-! ## C6: session get-or-create -/

theorem dictGet_some_mem (st : Store) (k : String) (v : SessionData)
    (h : dictGet st k = some v) : k ∈ st.map Prod.fst := by
  by_contra hmem
  rw [(dictGet_none_iff st k).2 hmem] at h
  exact Option.noConfusion h

/-- What the create branch of `get_or_create_session` produces. -/
theorem create_branch_spec (st : Store) (now timeout : Int) (fresh_id : String)
    (hnd : (st.map Prod.fst).Nodup)
    (hfresh : fresh_id ∉ st.map Prod.fst) :
    dictGet (cleanup_expired_sessions st now timeout
        ++ [(fresh_id, ⟨fresh_id, [], now, now⟩)]) fresh_id
      = some ⟨fresh_id, [], now, now⟩
    ∧ ∀ (k : String) (v : SessionData), dictGet st k = some v →
        v.last_accessed < now - timeout →
        dictGet (cleanup_expired_sessions st now timeout
          ++ [(fresh_id, ⟨fresh_id, [], now, now⟩)]) k = none := by
  constructor
  · rw [dictGet_append]
    have h1 : dictGet (cleanup_expired_sessions st now timeout) fresh_id = none :=
      dictGet_filter_none st fresh_id _ ((dictGet_none_iff st fresh_id).2 hfresh)
    rw [h1]
    simp [dictGet]
  · intro k v hget hexp
    have hkne : k ≠ fresh_id := by
      intro hk
      exact hfresh (hk ▸ dictGet_some_mem st k v hget)
    have h1 : dictGet (cleanup_expired_sessions st now timeout) k = none := by
      unfold cleanup_expired_sessions
      exact dictGet_filter_dropped st k v _ hnd hget (by simp only [decide_eq_false_iff_not, not_not]; exact hexp)
    rw [dictGet_append, h1]
    simp [dictGet, Ne.symm hkne]

/-- C6: `get_or_create_session` returns a supplied id unchanged (with a
refreshed `last_accessed`) exactly when it names a stored session last
accessed within the timeout; in every other case (no id, unknown id, or an
id last accessed strictly longer than the timeout ago) it sweeps every
expired session and stores and returns a fresh id with an empty message
list. -/
theorem c6_get_or_create (st : Store) (now timeout : Int) (fresh_id : String)
    (hnd : (st.map Prod.fst).Nodup)
    (hfresh : fresh_id ∉ st.map Prod.fst) :
    (∀ (s : String) (sess : SessionData), s ≠ "" → dictGet st s = some sess →
      now - timeout ≤ sess.last_accessed →
      (get_or_create_session st now timeout (some s) fresh_id).1 = s
      ∧ dictGet (get_or_create_session st now timeout (some s) fresh_id).2 s
          = some { sess with last_accessed := now })
    ∧ (∀ sid? : Option String,
        (∀ s, sid? = some s → s = "" ∨ dictGet st s = none ∨
          ∃ sess, dictGet st s = some sess ∧ sess.last_accessed < now - timeout) →
        (get_or_create_session st now timeout sid? fresh_id).1 = fresh_id
        ∧ dictGet (get_or_create_session st now timeout sid? fresh_id).2 fresh_id
            = some ⟨fresh_id, [], now, now⟩
        ∧ ∀ (k : String) (v : SessionData), dictGet st k = some v →
            v.last_accessed < now - timeout →
            dictGet (get_or_create_session st now timeout sid? fresh_id).2 k = none) := by
  constructor
  · intro s sess hs hget hin
    have hclean : dictGet (cleanup_expired_sessions st now timeout) s = some sess := by
      unfold cleanup_expired_sessions
      exact dictGet_filter_of_kept st s sess _ hget (by simpa using hin)
    have hcond : s ≠ "" ∧ (dictGet (cleanup_expired_sessions st now timeout) s).isSome := by
      refine ⟨hs, ?_⟩
      rw [hclean]
      rfl
    simp only [get_or_create_session]
    rw [if_pos hcond]
    refine ⟨rfl, ?_⟩
    rw [dictGet_dictUpd_self, hclean]
    rfl
  · intro sid? hcond
    have hcreate := create_branch_spec st now timeout fresh_id hnd hfresh
    cases sid? with
    | none =>
      exact ⟨rfl, hcreate.1, hcreate.2⟩
    | some s =>
      have hnotknown : ¬ (s ≠ "" ∧ (dictGet (cleanup_expired_sessions st now timeout) s).isSome) := by
        rcases hcond s rfl with hempty | hnone | ⟨sess, hsess, hexp⟩
        · intro hc
          exact hc.1 hempty
        · intro hc
          have h1 : dictGet (cleanup_expired_sessions st now timeout) s = none := by
            unfold cleanup_expired_sessions
            exact dictGet_filter_none st s _ hnone
          rw [h1] at hc
          exact Option.noConfusion (Option.isSome_iff_exists.1 hc.2).choose_spec
        · intro hc
          have h1 : dictGet (cleanup_expired_sessions st now timeout) s = none := by
            unfold cleanup_expired_sessions
            exact dictGet_filter_dropped st s sess _ hnd hsess (by simp only [decide_eq_false_iff_not, not_not]; exact hexp)
          rw [h1] at hc
          exact Option.noConfusion (Option.isSome_iff_exists.1 hc.2).choose_spec
      simp only [get_or_create_session]
      rw [if_neg hnotknown]
      exact ⟨rfl, hcreate.1, hcreate.2⟩

/-- C6 witness: on a store holding a live session `"a"` (last accessed at
time 95, timeout 60, now 100) and an expired session `"b"` (last accessed
at time 10), supplying `"a"` returns `"a"` refreshed, while supplying
nothing mints the fresh id and sweeps `"b"`. -/
theorem c6_witness :
    ((get_or_create_session
        [("a", ⟨"a", [], 0, 95⟩), ("b", ⟨"b", [], 0, 10⟩)] 100 60 (some "a") "f").1 = "a"
      ∧ dictGet (get_or_create_session
        [("a", ⟨"a", [], 0, 95⟩), ("b", ⟨"b", [], 0, 10⟩)] 100 60 (some "a") "f").2 "a"
          = some ⟨"a", [], 0, 100⟩)
    ∧ ((get_or_create_session
        [("a", ⟨"a", [], 0, 95⟩), ("b", ⟨"b", [], 0, 10⟩)] 100 60 none "f").1 = "f"
      ∧ dictGet (get_or_create_session
        [("a", ⟨"a", [], 0, 95⟩), ("b", ⟨"b", [], 0, 10⟩)] 100 60 none "f").2 "f"
          = some ⟨"f", [], 100, 100⟩
      ∧ dictGet (get_or_create_session
        [("a", ⟨"a", [], 0, 95⟩), ("b", ⟨"b", [], 0, 10⟩)] 100 60 none "f").2 "b" = none) := by
  have hthm := c6_get_or_create [("a", ⟨"a", [], 0, 95⟩), ("b", ⟨"b", [], 0, 10⟩)] 100 60 "f"
    (by decide) (by decide)
  refine ⟨?_, ?_⟩
  · exact hthm.1 "a" ⟨"a", [], 0, 95⟩ (by decide) (by decide) (by decide)
  · have h2 := hthm.2 none (by intro s hs; exact Option.noConfusion hs)
    exact ⟨h2.1, h2.2.1, h2.2.2 "b" ⟨"b", [], 0, 10⟩ (by decide) (by decide)⟩

/-! ## C2: search threshold and ordering -/

theorem search_new_eq (t : ℚ) (l : List AzureDoc) :
    search_new t l = (l.filter (fun r => t ≤ azureScore r)).map
      (fun r => ((⟨r.content, r.document_name, r.chunk_index, r.id⟩ : DocumentChunk),
        azureScore r)) := by
  induction l with
  | nil => rfl
  | cons x xs ih =>
    by_cases hx : t ≤ azureScore x
    · simp only [search_new, List.filterMap_cons, List.filter_cons, if_pos hx] at ih ⊢
      rw [if_pos (by simpa using hx)]
      simp only [List.map_cons]
      rw [← ih]
    · simp only [search_new, List.filterMap_cons, List.filter_cons, if_neg hx] at ih ⊢
      rw [if_neg (by simpa using hx)]
      rw [← ih]

/-- C2 counterexample: `search` of `rag_service.py` returns the backend
results unfiltered, so with the configured threshold `0.7` a backend hit
scoring `0.5` is returned — the claim that no returned score is below the
threshold is false for that search implementation. -/
theorem c2_counterexample :
    ¬ (∀ backend : List AzureDoc, ∀ r ∈ search_old backend,
        similarityThresholdDefault ≤ azureScore r) := by
  intro h
  have h1 := h [⟨"body", "doc", 0, "id0", some (1 / 2)⟩]
    ⟨"body", "doc", 0, "id0", some (1 / 2)⟩ (by simp [search_old])
  rw [similarityThresholdDefault] at h1
  norm_num [azureScore] at h1

/-- C2 (amended): `search` of `rag_service_new.py` drops every result
scoring below the configured threshold, and whenever the backend's results
arrive sorted by non-increasing score (the search collaborator's ranking
contract), the filtered output is still sorted by non-increasing score;
`search` of `rag_service.py` performs no threshold filtering. -/
theorem c2_search_threshold_and_order (t : ℚ) (backend : List AzureDoc)
    (hsorted : backend.Pairwise (fun a b => azureScore b ≤ azureScore a)) :
    (search_new t backend).Pairwise (fun p q => q.2 ≤ p.2)
    ∧ ∀ p ∈ search_new t backend, t ≤ p.2 := by
  rw [search_new_eq]
  constructor
  · exact (List.pairwise_map).2 (List.Pairwise.sublist (List.filter_sublist _) hsorted)
  · intro p hp
    rcases List.mem_map.1 hp with ⟨r, hr, rfl⟩
    simpa using (List.mem_filter.1 hr).2

/-- C2 witness: with threshold `1`, backend results scored `1` then `0`
(sorted non-increasingly), the filtered output is sorted and entirely at
or above the threshold. -/
theorem c2_witness :
    (search_new 1 [⟨"a", "d1", 0, "i1", some 1⟩, ⟨"b", "d2", 1, "i2", some 0⟩]).Pairwise
      (fun p q => q.2 ≤ p.2)
    ∧ ∀ p ∈ search_new 1 [⟨"a", "d1", 0, "i1", some 1⟩, ⟨"b", "d2", 1, "i2", some 0⟩],
        (1 : ℚ) ≤ p.2 :=
  c2_search_threshold_and_order 1
    [⟨"a", "d1", 0, "i1", some 1⟩, ⟨"b", "d2", 1, "i2", some 0⟩]
    (by decide)

/-! ## C3: context assembly and source list -/

theorem dedupFirstAux_spec (l : List String) : ∀ seen : List String,
    (dedupFirstAux seen l).Nodup
    ∧ ∀ x, x ∈ dedupFirstAux seen l ↔ x ∈ l ∧ x ∉ seen := by
  induction l with
  | nil => intro seen; simp [dedupFirstAux]
  | cons y ys ih =>
    intro seen
    by_cases hy : y ∈ seen
    · rw [dedupFirstAux, if_pos hy]
      refine ⟨(ih seen).1, fun x => ?_⟩
      rw [(ih seen).2 x]
      constructor
      · exact fun hx => ⟨List.mem_cons_of_mem _ hx.1, hx.2⟩
      · rintro ⟨hx1, hx2⟩
        rcases List.mem_cons.1 hx1 with rfl | hmem
        · exact absurd hy hx2
        · exact ⟨hmem, hx2⟩
    · rw [dedupFirstAux, if_neg hy]
      constructor
      · rw [List.nodup_cons]
        refine ⟨fun hmem => ?_, (ih (y :: seen)).1⟩
        have := ((ih (y :: seen)).2 y).1 hmem
        exact this.2 (List.mem_cons_self y seen)
      · intro x
        rw [List.mem_cons, (ih (y :: seen)).2 x]
        constructor
        · rintro (rfl | ⟨hx1, hx2⟩)
          · exact ⟨List.mem_cons_self x ys, hy⟩
          · exact ⟨List.mem_cons_of_mem _ hx1, fun hs => hx2 (List.mem_cons_of_mem _ hs)⟩
        · rintro ⟨hx1, hx2⟩
          rcases List.mem_cons.1 hx1 with rfl | hmem
          · exact Or.inl rfl
          · by_cases hxy : x = y
            · exact Or.inl hxy
            · exact Or.inr ⟨hmem, fun hs => by
                rcases List.mem_cons.1 hs with h' | h'
                · exact hxy h'
                · exact hx2 h'⟩

theorem dedupFirst_nodup (l : List String) : (dedupFirst l).Nodup :=
  (dedupFirstAux_spec l []).1

theorem dedupFirst_mem (l : List String) (x : String) : x ∈ dedupFirst l ↔ x ∈ l := by
  rw [dedupFirst, (dedupFirstAux_spec l []).2 x]
  simp

theorem dedupFirst_setEnumeration : SetEnumeration dedupFirst :=
  fun l => ⟨dedupFirst_nodup l, dedupFirst_mem l⟩

theorem revFirstOrder_setEnumeration : SetEnumeration revFirstOrder :=
  fun l => ⟨List.nodup_reverse.2 (dedupFirst_nodup l),
    fun x => by rw [revFirstOrder, List.mem_reverse, dedupFirst_mem]⟩

/-- C3 counterexample: both `get_context_for_query` implementations build
the source list through a Python `set`, whose enumeration order is not
first-appearance order.  Under the perfectly possible enumeration that
lists distinct names in reverse first-appearance order, two hits from
`doc2` then `doc1` yield the source list `[doc1, doc2]`, not the claimed
first-appearance order `[doc2, doc1]`. -/
theorem c3_counterexample :
    ¬ (∀ ord : List String → List String, SetEnumeration ord →
        ∀ results : List (DocumentChunk × ℚ),
          (get_context_for_query ord results).2
            = dedupFirst (results.map (fun h => h.1.document_name))) := by
  intro h
  have h1 := h revFirstOrder revFirstOrder_setEnumeration
    [(⟨"c2", "doc2", 0, "i2"⟩, 1), (⟨"c1", "doc1", 0, "i1"⟩, 1)]
  simp only [get_context_for_query, revFirstOrder, List.map_cons, List.map_nil] at h1
  exact absurd h1 (by decide)

/-- C3 (amended): `get_context_for_query` returns `("", [])` exactly when
the underlying search returned no results; otherwise the context joins one
labeled block per hit with the visible separator and the source list
enumerates each distinct source document exactly once — in the set's
enumeration order, which need not be first-appearance order. -/
theorem c3_context_and_sources (ord : List String → List String)
    (hord : SetEnumeration ord) (results : List (DocumentChunk × ℚ)) :
    (get_context_for_query ord results = ("", []) ↔ results = [])
    ∧ (get_context_for_query ord results).2.Nodup
    ∧ (∀ d, d ∈ (get_context_for_query ord results).2 ↔
        d ∈ results.map (fun h => h.1.document_name)) := by
  rcases hord (results.map fun h => h.1.document_name) with ⟨hnd, hmem⟩
  cases results with
  | nil => simp [get_context_for_query]
  | cons r rs =>
    have hres : ¬ (r :: rs : List (DocumentChunk × ℚ)).isEmpty = true := by simp
    unfold get_context_for_query
    rw [if_neg hres]
    refine ⟨?_, hnd, hmem⟩
    constructor
    · intro heq
      have hsnd := congrArg Prod.snd heq
      simp only at hsnd
      have : r.1.document_name ∈ ord ((r :: rs).map fun h => h.1.document_name) :=
        (hmem r.1.document_name).2 (by simp)
      rw [hsnd] at this
      simp at this
    · intro h
      exact List.noConfusion h

/-- C3 witness: with the first-appearance enumeration order (one concrete
admissible set order) and two hits from distinct documents, the result is
nonempty, duplicate-free and carries exactly the hit documents. -/
theorem c3_witness :
    (get_context_for_query dedupFirst
        [(⟨"c2", "doc2", 0, "i2"⟩, 1), (⟨"c1", "doc1", 0, "i1"⟩, 1)] = ("", [])
      ↔ ([(⟨"c2", "doc2", 0, "i2"⟩, 1), (⟨"c1", "doc1", 0, "i1"⟩, 1)]
          : List (DocumentChunk × ℚ)) = [])
    ∧ (get_context_for_query dedupFirst
        [(⟨"c2", "doc2", 0, "i2"⟩, 1), (⟨"c1", "doc1", 0, "i1"⟩, 1)]).2.Nodup
    ∧ (∀ d, d ∈ (get_context_for_query dedupFirst
        [(⟨"c2", "doc2", 0, "i2"⟩, 1), (⟨"c1", "doc1", 0, "i1"⟩, 1)]).2 ↔
        d ∈ ([(⟨"c2", "doc2", 0, "i2"⟩, 1), (⟨"c1", "doc1", 0, "i1"⟩, 1)]
          : List (DocumentChunk × ℚ)).map (fun h => h.1.document_name)) :=
  c3_context_and_sources dedupFirst dedupFirst_setEnumeration
    [(⟨"c2", "doc2", 0, "i2"⟩, 1), (⟨"c1", "doc1", 0, "i1"⟩, 1)]

/-! ## C9: empty-context RAG answer and session append order -/

/-- `_generate_rag_response` never reaches the generation collaborator
when the retrieved context is empty. -/
theorem generate_rag_response_empty (retrieve : String → String × List String)
    (genRag : String → String → List (String × String) → String)
    (query search_query : String) (history : List (String × String))
    (hctx : (retrieve search_query).1 = "") :
    generate_rag_response retrieve genRag query search_query history = (noInfoMsg, []) := by
  simp [generate_rag_response, hctx]

/-- The session bookkeeping of `process_query` for an unsupplied session
id, spelled out: the returned id is the freshly minted one and the final
store is the swept store plus the fresh session, with the user query and
then the assistant answer appended. -/
theorem process_query_store (query : String) (st : Store) (now timeout : Int)
    (m : Nat) (fresh_id : String) (resp : Except Unit ClassifyMessage)
    (genD : String → List (String × String) → String)
    (retrieve : String → String × List String)
    (genR : String → String → List (String × String) → String) :
    (process_query query none st now timeout m fresh_id resp genD retrieve genR).session_id
      = fresh_id
    ∧ (process_query query none st now timeout m fresh_id resp genD retrieve genR).store
      = add_message (add_message
          (cleanup_expired_sessions st now timeout ++ [(fresh_id, ⟨fresh_id, [], now, now⟩)])
          fresh_id "user" query now m)
          fresh_id "assistant"
          (process_query query none st now timeout m fresh_id resp genD retrieve genR).answer
          now m :=
  ⟨rfl, rfl⟩

/-- History read-back after the two appends of `process_query` on a fresh
session. -/
theorem history_after_two_appends (m : Nat) (hm : 1 ≤ m) (st1 : Store) (sid : String)
    (now : Int) (sess : SessionData) (hget : dictGet st1 sid = some sess)
    (hmsgs : sess.messages = []) (q a : String) :
    get_conversation_history
        (add_message (add_message st1 sid "user" q now m) sid "assistant" a now m) sid m
      = [("user", q), ("assistant", a)] := by
  have h1 := add_message_found st1 sid "user" q now m hm sess hget
  rw [hmsgs] at h1
  rw [lastCap_of_le _ _ (by simp; omega)] at h1
  have h2 := add_message_found _ sid "assistant" a now m hm _ h1
  rw [lastCap_of_le _ _ (by simp; omega)] at h2
  simp only [get_conversation_history, h2]
  rw [pyLastSlice_eq_lastCap _ (by omega)]
  rw [lastCap_of_le _ _ (by simp; omega)]
  simp

/-- C9: when the router chose `RETRIEVE` and retrieval finds no context,
`process_query` answers the fixed no-information message with no sources,
never invokes the generation collaborator (the result is the same whatever
that collaborator would answer), and still appends the user query followed
by the assistant answer — observable as the fresh session's history. -/
theorem c9_empty_context (query : String) (st : Store) (now timeout : Int) (m : Nat)
    (fresh_id : String) (resp : Except Unit ClassifyMessage)
    (genD : String → List (String × String) → String)
    (retrieve : String → String × List String)
    (genR : String → String → List (String × String) → String)
    (hm : 1 ≤ m) (hnd : (st.map Prod.fst).Nodup) (hfresh : fresh_id ∉ st.map Prod.fst)
    (hrag : (classify_and_process_query resp query).1 = QueryType.rag)
    (hctx : ∀ s, (retrieve s).1 = "") :
    (process_query query none st now timeout m fresh_id resp genD retrieve genR).answer
      = noInfoMsg
    ∧ (process_query query none st now timeout m fresh_id resp genD retrieve genR).sources
      = []
    ∧ (∀ genR', process_query query none st now timeout m fresh_id resp genD retrieve genR'
        = process_query query none st now timeout m fresh_id resp genD retrieve genR)
    ∧ get_conversation_history
        (process_query query none st now timeout m fresh_id resp genD retrieve genR).store
        (process_query query none st now timeout m fresh_id resp genD retrieve genR).session_id
        m
      = [("user", query), ("assistant", noInfoMsg)] := by
  rcases hcq : classify_and_process_query resp query with ⟨qt, sq⟩
  rw [hcq] at hrag
  simp only at hrag
  subst hrag
  have hans : (process_query query none st now timeout m fresh_id resp genD retrieve genR).answer
      = noInfoMsg := by
    simp [process_query, hcq, generate_rag_response_empty _ _ _ _ _ (hctx _)]
  refine ⟨hans, ?_, ?_, ?_⟩
  · simp [process_query, hcq, generate_rag_response_empty _ _ _ _ _ (hctx _)]
  · intro genR'
    simp [process_query, hcq, generate_rag_response_empty _ _ _ _ _ (hctx _)]
  · have hsess := process_query_store query st now timeout m fresh_id resp genD retrieve genR
    rw [hsess.1, hsess.2, hans]
    have hget1 : dictGet (cleanup_expired_sessions st now timeout
        ++ [(fresh_id, ⟨fresh_id, [], now, now⟩)]) fresh_id = some ⟨fresh_id, [], now, now⟩ :=
      (create_branch_spec st now timeout fresh_id hnd hfresh).1
    exact history_after_two_appends m hm _ fresh_id now _ hget1 rfl query noInfoMsg

/-- C9 witness: a concrete run (fail-open classification, retrieval that
finds nothing) answers the fixed message, with no sources, independently
of the generation collaborator, and records user then assistant. -/
theorem c9_witness :
    (process_query "q" none [] 0 60 1 "f" (Except.error ()) (fun _ _ => "")
        (fun _ => ("", [])) (fun _ _ _ => "generated")).answer = noInfoMsg
    ∧ (process_query "q" none [] 0 60 1 "f" (Except.error ()) (fun _ _ => "")
        (fun _ => ("", [])) (fun _ _ _ => "generated")).sources = []
    ∧ (∀ genR', process_query "q" none [] 0 60 1 "f" (Except.error ()) (fun _ _ => "")
        (fun _ => ("", [])) genR'
        = process_query "q" none [] 0 60 1 "f" (Except.error ()) (fun _ _ => "")
          (fun _ => ("", [])) (fun _ _ _ => "generated"))
    ∧ get_conversation_history
        (process_query "q" none [] 0 60 1 "f" (Except.error ()) (fun _ _ => "")
          (fun _ => ("", [])) (fun _ _ _ => "generated")).store
        (process_query "q" none [] 0 60 1 "f" (Except.error ()) (fun _ _ => "")
          (fun _ => ("", [])) (fun _ _ _ => "generated")).session_id 1
      = [("user", "q"), ("assistant", noInfoMsg)] :=
  c9_empty_context "q" [] 0 60 1 "f" (Except.error ()) (fun _ _ => "")
    (fun _ => ("", [])) (fun _ _ _ => "generated")
    (by decide) (by decide) (by decide) rfl (fun _ => rfl)

/-! ## C1 and C7: the chunker -/

theorem pyRfindNat_bounds (text sub : List Char) (a b i : Nat)
    (h : pyRfindNat text sub a b = some i) :
    a ≤ i ∧ i + sub.length ≤ min b text.length := by
  have hmem := getLast?_mem_of_eq h
  have hsplit := List.mem_filter.1 hmem
  have hp := hsplit.2
  simp only [decide_eq_true_eq] at hp
  exact ⟨hp.1, hp.2.1⟩

theorem adjustEnd_bounds (text : List Char) (size start e : Nat)
    (he : start < e) (hle : e ≤ text.length) (bs : List (List Char)) :
    start < adjustEnd text size start e bs ∧ adjustEnd text size start e bs ≤ text.length := by
  induction bs with
  | nil => exact ⟨he, hle⟩
  | cons b rest ih =>
    cases hfind : pyRfindNat text b start e with
    | none => simpa [adjustEnd, hfind] using ih
    | some lb =>
      by_cases hlb : start + size / 2 < lb
      · simp only [adjustEnd, hfind, if_pos hlb]
        have hb := pyRfindNat_bounds text b start e lb hfind
        have hmin : min e text.length ≤ text.length := Nat.min_le_right _ _
        exact ⟨by omega, by omega⟩
      · simpa [adjustEnd, hfind, if_neg hlb] using ih

/-- The adjusted window end of one `_chunk_text` iteration lies strictly
past `start` and within the text, as soon as `size ≥ 1`. -/
theorem chunk_e_bounds (text : List Char) (size start : Nat) (hs : 1 ≤ size)
    (hlt : start < text.length) :
    start < (if min (start + size) text.length < text.length
        then adjustEnd text size start (min (start + size) text.length) chunkBoundaries
        else min (start + size) text.length)
    ∧ (if min (start + size) text.length < text.length
        then adjustEnd text size start (min (start + size) text.length) chunkBoundaries
        else min (start + size) text.length) ≤ text.length := by
  have he0a : start < min (start + size) text.length := by
    apply Nat.lt_min.2
    constructor <;> omega
  have he0b : min (start + size) text.length ≤ text.length := Nat.min_le_right _ _
  by_cases hc : min (start + size) text.length < text.length
  · rw [if_pos hc]
    exact adjustEnd_bounds text size start _ he0a he0b chunkBoundaries
  · rw [if_neg hc]
    exact ⟨he0a, he0b⟩

/-- On whitespace-only text every window strips to nothing, so the loop
produces no chunks (and terminates within the stated fuel). -/
theorem chunkNewLoop_ws (text : List Char) (size overlap : Nat) (hs : 1 ≤ size)
    (hws : ∀ c ∈ text, pyIsSpace c = true) :
    ∀ (fuel start : Nat), text.length - start < fuel →
      chunkNewLoop text size overlap fuel start = some [] := by
  intro fuel
  induction fuel with
  | zero => intro start h; omega
  | succ f ih =>
    intro start h
    rw [chunkNewLoop]
    by_cases hlt : start < text.length
    · rw [if_pos hlt]
      dsimp only
      have hchunk : ∀ e, pyStrip ((text.take e).drop start) = [] := fun e =>
        pyStrip_of_all_space _ (fun c hc =>
          hws c (List.mem_of_mem_take (List.mem_of_mem_drop hc)))
      rw [hchunk]
      simp only [if_pos rfl]
      have hE := chunk_e_bounds text size start hs hlt
      by_cases hdone : text.length ≤ (if min (start + size) text.length < text.length
          then adjustEnd text size start (min (start + size) text.length) chunkBoundaries
          else min (start + size) text.length)
      · rw [if_pos hdone]
        rfl
      · rw [if_neg hdone]
        rw [ih _ (by
          rcases hE with ⟨hEa, hEb⟩
          by_cases hov : (if min (start + size) text.length < text.length
              then adjustEnd text size start (min (start + size) text.length) chunkBoundaries
              else min (start + size) text.length) - overlap ≤ start
          · rw [if_pos hov]; omega
          · rw [if_neg hov]; omega)]
        rfl
    · rw [if_neg hlt]

/-- Every chunk the loop emits is its own strip and non-empty. -/
theorem chunkNewLoop_chunks (text : List Char) (size overlap : Nat) :
    ∀ (fuel start : Nat) (r : List (List Char)),
      chunkNewLoop text size overlap fuel start = some r →
      ∀ c ∈ r, pyStrip c = c ∧ c ≠ [] := by
  intro fuel
  induction fuel with
  | zero => intro start r h; exact Option.noConfusion h
  | succ f ih =>
    intro start r h
    rw [chunkNewLoop] at h
    by_cases hlt : start < text.length
    · rw [if_pos hlt] at h
      dsimp only at h
      generalize hE : (if min (start + size) text.length < text.length
          then adjustEnd text size start (min (start + size) text.length) chunkBoundaries
          else min (start + size) text.length) = E at h
      rcases Option.map_eq_some'.1 h with ⟨rest, hrest, hr⟩
      have hrest' : ∀ c ∈ rest, pyStrip c = c ∧ c ≠ [] := by
        by_cases hdone : text.length ≤ E
        · rw [if_pos hdone] at hrest
          injection hrest with h'
          subst h'
          intro c hc
          exact absurd hc (List.not_mem_nil c)
        · rw [if_neg hdone] at hrest
          exact ih _ _ hrest
      intro c hc
      rw [← hr] at hc
      by_cases hchunk : pyStrip ((text.take E).drop start) = []
      · rw [if_pos hchunk] at hc
        exact hrest' c hc
      · rw [if_neg hchunk] at hc
        rcases List.mem_cons.1 hc with rfl | hmem
        · exact ⟨pyStrip_idem _, hchunk⟩
        · exact hrest' c hmem
    · rw [if_neg hlt] at h
      injection h with h'
      subst h'
      intro c hc
      exact absurd hc (List.not_mem_nil c)

/-- C7: `_chunk_text` (the guarded `rag_service_new.py` form) returns no
chunks on empty or whitespace-only text; on any other text shorter than
the chunk size it returns exactly one chunk, the whole text stripped; and
every chunk it ever returns is non-empty after stripping (indeed already
stripped). -/
theorem c7_chunk_edge_cases (text : List Char) (size overlap : Nat) (hs : 1 ≤ size) :
    ((∀ c ∈ text, pyIsSpace c = true) → chunk_text_new text size overlap = [])
    ∧ ((∃ c ∈ text, pyIsSpace c = false) → text.length < size →
        chunk_text_new text size overlap = [pyStrip text])
    ∧ (∀ c ∈ chunk_text_new text size overlap, pyStrip c ≠ [] ∧ pyStrip c = c) := by
  refine ⟨?_, ?_, ?_⟩
  · intro hws
    rw [chunk_text_new, chunkNewLoop_ws text size overlap hs hws _ 0 (by omega)]
    rfl
  · intro hex hlen
    have hne : text ≠ [] := by
      rintro rfl
      rcases hex with ⟨c, hc, _⟩
      exact absurd hc (List.not_mem_nil c)
    have hpos : 0 < text.length := List.length_pos.2 hne
    rw [chunk_text_new, chunkNewLoop]
    rw [if_pos hpos]
    dsimp only
    rw [Nat.zero_add, Nat.min_eq_right (Nat.le_of_lt hlen)]
    rw [if_neg (lt_irrefl text.length), if_pos (le_refl text.length)]
    rw [List.take_length, List.drop_zero]
    simp only [Option.map_some', Option.getD_some]
    rw [if_neg (pyStrip_ne_nil_of_exists text hex)]
  · intro c hc
    rw [chunk_text_new] at hc
    cases hloop : chunkNewLoop text size overlap (text.length + 1) 0 with
    | none =>
      rw [hloop] at hc
      exact absurd hc (List.not_mem_nil c)
    | some r =>
      rw [hloop] at hc
      have := chunkNewLoop_chunks text size overlap _ 0 r hloop c hc
      exact ⟨by rw [this.1]; exact this.2, this.1⟩

/-- C7 witness: whitespace-only text chunks to nothing; a short two-word
text chunks to itself; and each of its chunks strips to itself,
non-empty. -/
theorem c7_witness :
    chunk_text_new ("  \n ".toList) 500 50 = []
    ∧ chunk_text_new ("hi there".toList) 500 50 = [pyStrip ("hi there".toList)]
    ∧ ∀ c ∈ chunk_text_new ("hi there".toList) 500 50, pyStrip c ≠ [] ∧ pyStrip c = c :=
  ⟨(c7_chunk_edge_cases ("  \n ".toList) 500 50 (by decide)).1 (by decide),
   (c7_chunk_edge_cases ("hi there".toList) 500 50 (by decide)).2.1 (by decide) (by decide),
   (c7_chunk_edge_cases ("hi there".toList) 500 50 (by decide)).2.2⟩

/-- C1: the claimed forced-progress guard is implemented in
`rag_service_new.py` but missing from `_chunk_text` in `rag_service.py`:
there the next start is always `end - overlap`, so on the ten-character
text `"abcdefghij"` with `chunk_size = 2` and `overlap = 2` every
iteration recomputes `start = 2 - 2 = 0` and the loop never exits — no
amount of fuel completes it — while the guarded variant terminates on the
same input with the expected chunks. -/
theorem c1_old_chunker_never_terminates :
    (∀ fuel : Nat, chunkOldLoop ("abcdefghij".toList) 2 2 fuel 0 = none)
    ∧ chunk_text_new ("abcdefghij".toList) 2 2
        = ["ab".toList, "cd".toList, "ef".toList, "gh".toList, "ij".toList] := by
  constructor
  · intro fuel
    induction fuel with
    | zero => rfl
    | succ f ih =>
      have hstep : chunkOldLoop ("abcdefghij".toList) 2 2 (f + 1) 0
          = Option.map
              (fun rest => if ("ab".toList : List Char) = [] then rest
                else ("ab".toList) :: rest)
              (chunkOldLoop ("abcdefghij".toList) 2 2 f 0) := rfl
      rw [hstep, ih]
      rfl
  · rfl

/-- C1 witness: five fuel units (five loop iterations) still leave the
unguarded loop running on that input. -/
theorem c1_witness : chunkOldLoop ("abcdefghij".toList) 2 2 5 0 = none :=
  c1_old_chunker_never_terminates.1 5
